import Mathlib

/-!
Verification of `src/ext/hallon/events.c` (the Hallon event bridge).

The C function `event_producer` runs a loop:

  do {
    hn_proc_without_gvl(hn_sem_wait_nogvl, session_data->event_full);     // line 42
    VALUE ruby_event = session_data->event->handler(session_data->event->data);  // line 45
    if (ruby_event == Qnil) break;                                        // line 48
    rb_funcall3(session_data->event_queue, push, 1, &ruby_event);         // line 51
    hn_proc_without_gvl(hn_sem_post_nogvl, session_data->event_empty);    // line 52
  } while(1);
  return Qtrue;                                                           // line 55

We embed the producer thread shallowly: a run is driven by the sequence of
values the opaque handler returns (`Option V`, `none` standing for Qnil, the
terminal marker), and produces the list of primitive steps the thread
completes, in program order, together with the thread's return value
(`some true` standing for Qtrue) when the loop exits.

Each step records whether the GVL (Ruby's global exclusivity lock) is held
while the step executes: a call wrapped in `hn_proc_without_gvl` runs with
the GVL released, every other statement of the thread runs with it held.
-/

set_option autoImplicit false

namespace Hallon

/-- The two semaphores of the bridge, `session_data->event_full` and
`session_data->event_empty`. -/
inductive SemId where
  | eventFull
  | eventEmpty
  deriving DecidableEq

/-- A primitive operation performed by the producer thread, over Ruby
values modelled as `Option V` (`none` is Qnil). -/
inductive PrimOp (V : Type) where
  /-- `hn_sem_wait` on a semaphore. -/
  | semWait (s : SemId)
  /-- `hn_sem_post` on a semaphore. -/
  | semPost (s : SemId)
  /-- invocation of `session_data->event->handler`, recording its result. -/
  | callHandler (r : Option V)
  /-- `rb_funcall3(session_data->event_queue, push, 1, &v)`: append `v`
  to the Sink. -/
  | queuePush (v : Option V)
  deriving DecidableEq

/-- One completed step of the producer thread: the operation together with
whether the GVL is held during it (`hn_proc_without_gvl` releases it). -/
structure Step (V : Type) where
  op : PrimOp V
  gvlHeld : Bool
  deriving DecidableEq

/-- The producer loop of `event_producer` (events.c lines 33-55), driven by
the script `hs` of successive handler results. The result is the list of
completed steps in program order, paired with the thread's return value:
`some true` (Qtrue, line 55) once the loop has exited via `break`, `none`
while the thread is still running (script exhausted while blocked on the
next `event_full` wait). After a `none` (Qnil) result the loop breaks, so
the rest of the script is irrelevant. -/
def producerRun {V : Type} : List (Option V) → List (Step V) × Option Bool
  | [] => ([], none)
  | none :: _ =>
      ([⟨PrimOp.semWait SemId.eventFull, false⟩,
        ⟨PrimOp.callHandler none, true⟩], some true)
  | some v :: rest =>
      let r := producerRun rest
      (⟨PrimOp.semWait SemId.eventFull, false⟩ ::
       ⟨PrimOp.callHandler (some v), true⟩ ::
       ⟨PrimOp.queuePush (some v), true⟩ ::
       ⟨PrimOp.semPost SemId.eventEmpty, false⟩ :: r.1, r.2)

/-- The trace of completed steps of a producer run. -/
def producerTrace {V : Type} (hs : List (Option V)) : List (Step V) :=
  (producerRun hs).1

/-- The return value of the producer thread (`some true` = Qtrue). -/
def producerResult {V : Type} (hs : List (Option V)) : Option Bool :=
  (producerRun hs).2

/-- The value a step appends to the Sink, if it is a `queuePush`. -/
def pushedValue {V : Type} : Step V → Option (Option V)
  | ⟨PrimOp.queuePush v, _⟩ => some v
  | _ => none

/-- The final contents of the Sink (`event_queue`): the values pushed by a
trace, in order. -/
def sinkOf {V : Type} (t : List (Step V)) : List (Option V) :=
  t.filterMap pushedValue

/-- The four steps of one forwarding cycle (lines 42, 45, 51, 52) for a
non-terminal handler result `v`. -/
def fwdCycle {V : Type} (v : V) : List (Step V) :=
  [⟨PrimOp.semWait SemId.eventFull, false⟩,
   ⟨PrimOp.callHandler (some v), true⟩,
   ⟨PrimOp.queuePush (some v), true⟩,
   ⟨PrimOp.semPost SemId.eventEmpty, false⟩]

/-- Whether a step is a completed `event_full` wait (line 42). -/
def isWaitFull {V : Type} : Step V → Bool
  | ⟨PrimOp.semWait SemId.eventFull, _⟩ => true
  | _ => false

/-- Whether a step is a handler invocation (a dispatch, line 45). -/
def isDispatch {V : Type} : Step V → Bool
  | ⟨PrimOp.callHandler _, _⟩ => true
  | _ => false

/-- Whether a step is an `event_empty` post (line 52). -/
def isPostEmpty {V : Type} : Step V → Bool
  | ⟨PrimOp.semPost SemId.eventEmpty, _⟩ => true
  | _ => false

/-- Number of completed `event_full` waits in a trace. -/
def countWaitFull {V : Type} (t : List (Step V)) : Nat :=
  t.countP isWaitFull

/-- Number of handler invocations (dispatches) in a trace. -/
def countDispatch {V : Type} (t : List (Step V)) : Nat :=
  t.countP isDispatch

/-- Number of `event_empty` posts in a trace. -/
def countPostEmpty {V : Type} (t : List (Step V)) : Nat :=
  t.countP isPostEmpty

/-- A run on a script of non-terminal results followed by anything is the
corresponding forwarding cycles followed by the run of the remainder. -/
theorem producerRun_map_some_append {V : Type} (vs : List V) (hs : List (Option V)) :
    producerRun (vs.map some ++ hs) =
      (vs.flatMap fwdCycle ++ (producerRun hs).1, (producerRun hs).2) := by
  induction vs with
  | nil => simp
  | cons v vs ih => simp [producerRun, ih, fwdCycle]

/-- C1: in a run whose handler yields the values `vs` and then the terminal
marker, the Sink ends with exactly the entries `vs`, in production order. -/
theorem sink_is_produced_values {V : Type} (vs : List V) :
    sinkOf (producerTrace (vs.map some ++ [none])) = vs.map some := by
  induction vs with
  | nil => rfl
  | cons v vs ih =>
      simpa [producerTrace, producerRun, sinkOf, pushedValue] using ih

/-- C3: a terminal handler result ends the run inside the same dispatch
cycle: the trace is exactly the forwarding cycles for the non-terminal
results followed by one last `event_full` wait and the terminal handler
invocation, with nothing after it (in particular no further
`event_empty.post`); and when the terminal marker arrives on the very first
dispatch the Sink stays empty and `event_empty.post` is never called. -/
theorem terminal_exits_same_cycle {V : Type} (vs : List V) :
    producerTrace (vs.map some ++ [none]) =
      vs.flatMap fwdCycle ++
        [⟨PrimOp.semWait SemId.eventFull, false⟩, ⟨PrimOp.callHandler none, true⟩]
    ∧ sinkOf (producerTrace ([none] : List (Option V))) = []
    ∧ countPostEmpty (producerTrace ([none] : List (Option V))) = 0 := by
  refine ⟨?_, rfl, rfl⟩
  simpa [producerTrace, producerRun] using
    congrArg Prod.fst (producerRun_map_some_append vs [none])

/-- C7: the producer loop exits (and then returns Qtrue, `some true`) when
and only when the handler has returned the terminal marker Qnil; there is no
other return value and no other exit path. -/
theorem exit_only_on_terminal {V : Type} (hs : List (Option V)) :
    (producerResult hs = some true ↔ none ∈ hs)
    ∧ (producerResult hs = some true ∨ producerResult hs = none) := by
  induction hs with
  | nil => simp [producerResult, producerRun]
  | cons r rest ih =>
      cases r with
      | none => simp [producerResult, producerRun]
      | some v =>
          simpa [producerResult, producerRun] using ih

/-- C2 counterexample: the claim that the GVL is released only during
`event_full.wait()` fails on the run where the handler yields one value and
then Qnil: the `event_empty` post of line 52 is also wrapped in
`hn_proc_without_gvl`, so it too completes with the GVL released. -/
theorem gvl_release_not_only_wait :
    ¬ (∀ s : Step Nat, s ∈ producerTrace [some 0, none] →
        s.gvlHeld = false → s.op = PrimOp.semWait SemId.eventFull) := by
  intro h
  have hmem : (⟨PrimOp.semPost SemId.eventEmpty, false⟩ : Step Nat) ∈
      producerTrace [some 0, none] := by decide
  exact absurd (h _ hmem rfl) (by decide)

/-- C2 as amended: the producer releases the GVL exactly for the two calls
wrapped in `hn_proc_without_gvl` - the `event_full` wait (line 42) and the
`event_empty` post (line 52); handler invocation and the Sink append execute
with the GVL held. -/
theorem gvl_released_wait_and_post {V : Type} (hs : List (Option V)) (s : Step V)
    (h : s ∈ producerTrace hs) :
    s.gvlHeld = false ↔
      (s.op = PrimOp.semWait SemId.eventFull ∨ s.op = PrimOp.semPost SemId.eventEmpty) := by
  induction hs with
  | nil => simp [producerTrace, producerRun] at h
  | cons r rest ih =>
      cases r with
      | none =>
          simp [producerTrace, producerRun] at h
          rcases h with h | h <;> subst h <;> simp
      | some v =>
          simp [producerTrace, producerRun] at h
          rcases h with h | h | h | h | h
          · subst h; simp
          · subst h; simp
          · subst h; simp
          · subst h; simp
          · exact ih h

/-- Witness for the amended C2, at the `event_empty` post step of the run
`[some 0, none]`. -/
theorem gvl_released_wait_and_post_witness :
    ((⟨PrimOp.semPost SemId.eventEmpty, false⟩ : Step Nat).gvlHeld = false ↔
      ((⟨PrimOp.semPost SemId.eventEmpty, false⟩ : Step Nat).op = PrimOp.semWait SemId.eventFull ∨
       (⟨PrimOp.semPost SemId.eventEmpty, false⟩ : Step Nat).op = PrimOp.semPost SemId.eventEmpty)) :=
  gvl_released_wait_and_post [some 0, none]
    ⟨PrimOp.semPost SemId.eventEmpty, false⟩ (by decide)

/-- C8: the terminal marker Qnil is never appended to the Sink: line 48
checks the handler result before the push of line 51, so no step of any run
pushes `none`. -/
theorem nil_never_pushed {V : Type} (hs : List (Option V)) (s : Step V)
    (h : s ∈ producerTrace hs) : s.op ≠ PrimOp.queuePush none := by
  induction hs with
  | nil => simp [producerTrace, producerRun] at h
  | cons r rest ih =>
      cases r with
      | none =>
          simp [producerTrace, producerRun] at h
          rcases h with h | h <;> subst h <;> simp
      | some v =>
          simp [producerTrace, producerRun] at h
          rcases h with h | h | h | h | h
          · subst h; simp
          · subst h; simp
          · subst h; simp
          · subst h; simp
          · exact ih h

/-- Witness for C8, at the push step of the run `[some 0, none]`. -/
theorem nil_never_pushed_witness :
    (⟨PrimOp.queuePush (some 0), true⟩ : Step Nat).op ≠ PrimOp.queuePush none :=
  nil_never_pushed [some 0, none] ⟨PrimOp.queuePush (some 0), true⟩ (by decide)

/-- C10: the producer thread never waits on `event_empty` and never posts
`event_full`: together with the step shapes this means its only semaphore
operations are the `event_full` wait and the `event_empty` post. -/
theorem producer_sem_discipline {V : Type} (hs : List (Option V)) (s : Step V)
    (h : s ∈ producerTrace hs) :
    s.op ≠ PrimOp.semWait SemId.eventEmpty ∧ s.op ≠ PrimOp.semPost SemId.eventFull := by
  induction hs with
  | nil => simp [producerTrace, producerRun] at h
  | cons r rest ih =>
      cases r with
      | none =>
          simp [producerTrace, producerRun] at h
          rcases h with h | h <;> subst h <;> simp
      | some v =>
          simp [producerTrace, producerRun] at h
          rcases h with h | h | h | h | h
          · subst h; simp
          · subst h; simp
          · subst h; simp
          · subst h; simp
          · exact ih h

/-- Witness for C10, at the `event_full` wait step of the run
`[some 0, none]`. -/
theorem producer_sem_discipline_witness :
    (⟨PrimOp.semWait SemId.eventFull, false⟩ : Step Nat).op ≠ PrimOp.semWait SemId.eventEmpty ∧
    (⟨PrimOp.semWait SemId.eventFull, false⟩ : Step Nat).op ≠ PrimOp.semPost SemId.eventFull :=
  producer_sem_discipline [some 0, none]
    ⟨PrimOp.semWait SemId.eventFull, false⟩ (by decide)

/-- C4: whenever some step of a run is a Sink append (`queuePush`), the very
next step in the producer's program order is the `event_empty` post of line
52; so the post strictly follows the corresponding append. -/
theorem post_follows_push {V : Type} (hs : List (Option V)) (i : Nat) (s : Step V)
    (v : Option V) (h : (producerTrace hs)[i]? = some s)
    (ho : s.op = PrimOp.queuePush v) :
    (producerTrace hs)[i + 1]? = some ⟨PrimOp.semPost SemId.eventEmpty, false⟩ := by
  induction hs generalizing i with
  | nil => simp [producerTrace, producerRun] at h
  | cons r rest ih =>
      cases r with
      | none =>
          rcases i with _ | _ | i <;>
            simp [producerTrace, producerRun] at h <;> subst h <;> simp at ho
      | some w =>
          rcases i with _ | _ | _ | _ | i
          · simp [producerTrace, producerRun] at h; subst h; simp at ho
          · simp [producerTrace, producerRun] at h; subst h; simp at ho
          · simp [producerTrace, producerRun]
          · simp [producerTrace, producerRun] at h; subst h; simp at ho
          · simp only [producerTrace, producerRun] at h ⊢
            simpa using ih (i := i) (by simpa using h)

/-- Witness for C4: in the run `[some 5, none]` the push at index 2 is
followed at index 3 by the `event_empty` post. -/
theorem post_follows_push_witness :
    (producerTrace [some 5, none])[2 + 1]? =
      some ⟨PrimOp.semPost SemId.eventEmpty, false⟩ :=
  post_follows_push [some 5, none] 2 ⟨PrimOp.queuePush (some 5), true⟩ (some 5)
    (by decide) rfl

/-- C9: whenever some step of a run is a handler invocation returning the
non-terminal value `some v`, the very next step appends exactly that value
to the Sink, unmodified. -/
theorem push_is_handler_result {V : Type} (hs : List (Option V)) (i : Nat) (s : Step V)
    (v : V) (h : (producerTrace hs)[i]? = some s)
    (ho : s.op = PrimOp.callHandler (some v)) :
    (producerTrace hs)[i + 1]? = some ⟨PrimOp.queuePush (some v), true⟩ := by
  induction hs generalizing i with
  | nil => simp [producerTrace, producerRun] at h
  | cons r rest ih =>
      cases r with
      | none =>
          rcases i with _ | _ | i <;>
            simp [producerTrace, producerRun] at h <;> subst h <;> simp at ho
      | some w =>
          rcases i with _ | _ | _ | _ | i
          · simp [producerTrace, producerRun] at h; subst h; simp at ho
          · simp [producerTrace, producerRun] at h
            subst h
            simp at ho
            subst ho
            simp [producerTrace, producerRun]
          · simp [producerTrace, producerRun] at h; subst h; simp at ho
          · simp [producerTrace, producerRun] at h; subst h; simp at ho
          · simp only [producerTrace, producerRun] at h ⊢
            simpa using ih (i := i) (by simpa using h)

/-- Witness for C9: in the run `[some 5, none]` the dispatch at index 1
returns `some 5` and index 2 pushes exactly `some 5`. -/
theorem push_is_handler_result_witness :
    (producerTrace [some 5, none])[1 + 1]? =
      some ⟨PrimOp.queuePush (some 5), true⟩ :=
  push_is_handler_result [some 5, none] 1 ⟨PrimOp.callHandler (some 5), true⟩ 5
    (by decide) rfl

/-- Modelled from the spec: the `hn_sem` counting-semaphore primitive
(implemented outside these sources, in the extension's common code). A
completed operation on one semaphore is either a `post` (atomic increment)
or a `waitDone` (a wait that blocked until the count was positive, then
atomically decremented it). -/
inductive SemEv where
  | post
  | waitDone
  deriving DecidableEq

/-- Modelled from the spec: replay a history of completed operations on one
semaphore starting from count `c`. `none` means some completed wait would
have observed count 0, which the primitive forbids (such a wait blocks
instead of completing). -/
def semRun (c : Nat) : List SemEv → Option Nat
  | [] => some c
  | SemEv.post :: t => semRun (c + 1) t
  | SemEv.waitDone :: t =>
      match c with
      | 0 => none
      | c + 1 => semRun c t

/-- A history of completed operations on one semaphore is valid from initial
count `c` when no completed wait ever observed a zero count. -/
def validHistory (c : Nat) (h : List SemEv) : Prop :=
  (semRun c h).isSome = true

/-- Whether a semaphore event is a post. -/
def isPost : SemEv → Bool
  | SemEv.post => true
  | SemEv.waitDone => false

/-- Number of posts in a semaphore history. -/
def countPost (h : List SemEv) : Nat := h.countP isPost

/-- Number of completed waits in a semaphore history. -/
def countWaitDone (h : List SemEv) : Nat := h.countP (fun e => !(isPost e))

/-- In a valid semaphore replay the completed waits never outrun the initial
count plus the posts. -/
theorem semRun_waits_le (h : List SemEv) :
    ∀ c k, semRun c h = some k → countWaitDone h ≤ c + countPost h := by
  induction h with
  | nil =>
      intro c k _
      simp [countWaitDone, countPost]
  | cons e t ih =>
      intro c k hr
      cases e with
      | post =>
          have := ih (c + 1) k (by simpa [semRun] using hr)
          simp [countWaitDone, countPost, List.countP_cons, isPost] at this ⊢
          omega
      | waitDone =>
          cases c with
          | zero => simp [semRun] at hr
          | succ c =>
              have := ih c k (by simpa [semRun] using hr)
              simp [countWaitDone, countPost, List.countP_cons, isPost] at this ⊢
              omega

/-- In every program-order segment of a producer run the dispatches never
outrun the completed `event_full` waits. -/
theorem countDispatch_take_le {V : Type} (hs : List (Option V)) :
    ∀ n, countDispatch ((producerTrace hs).take n) ≤
      countWaitFull ((producerTrace hs).take n) := by
  induction hs with
  | nil =>
      intro n
      simp [producerTrace, producerRun, countDispatch, countWaitFull]
  | cons r rest ih =>
      intro n
      cases r with
      | none =>
          rcases n with _ | _ | n <;>
            simp [producerTrace, producerRun, countDispatch, countWaitFull,
              List.countP_cons, isDispatch, isWaitFull]
      | some v =>
          rcases n with _ | _ | _ | _ | n
          · simp [countDispatch, countWaitFull]
          · simp [producerTrace, producerRun, countDispatch, countWaitFull,
              List.countP_cons, isDispatch, isWaitFull]
          · simp [producerTrace, producerRun, countDispatch, countWaitFull,
              List.countP_cons, isDispatch, isWaitFull]
          · simp [producerTrace, producerRun, countDispatch, countWaitFull,
              List.countP_cons, isDispatch, isWaitFull]
          · have := ih n
            simp only [producerTrace, producerRun] at this ⊢
            simp only [List.take_succ_cons, countDispatch, countWaitFull,
              List.countP_cons, isDispatch, isWaitFull] at this ⊢
            omega

/-- Over a whole producer run every dispatch is paired with exactly one
completed `event_full` wait. -/
theorem countDispatch_eq_countWaitFull {V : Type} (hs : List (Option V)) :
    countDispatch (producerTrace hs) = countWaitFull (producerTrace hs) := by
  induction hs with
  | nil => rfl
  | cons r rest ih =>
      cases r with
      | none =>
          simp [producerTrace, producerRun, countDispatch, countWaitFull,
            List.countP_cons, isDispatch, isWaitFull]
      | some v =>
          simp only [producerTrace, producerRun] at ih ⊢
          simp only [countDispatch, countWaitFull, List.countP_cons,
            isDispatch, isWaitFull] at ih ⊢
          omega

/-- C5: every dispatch is preceded by exactly one completed `event_full`
wait (in every program-order segment of the run the dispatches never outrun
the waits, and over the whole run their counts are equal), and on any valid
history of the `event_full` semaphore, which starts at count 0, the
completed waits never exceed the posts issued; hence dispatches never exceed
`event_full` posts. -/
theorem dispatch_wait_post_pairing {V : Type} (hs : List (Option V)) (n : Nat)
    (h : List SemEv) (hv : validHistory 0 h) :
    countDispatch ((producerTrace hs).take n) ≤
        countWaitFull ((producerTrace hs).take n)
    ∧ countDispatch (producerTrace hs) = countWaitFull (producerTrace hs)
    ∧ countWaitDone h ≤ countPost h := by
  refine ⟨countDispatch_take_le hs n, countDispatch_eq_countWaitFull hs, ?_⟩
  obtain ⟨k, hk⟩ := Option.isSome_iff_exists.mp hv
  simpa using semRun_waits_le h 0 k hk

/-- Witness for C5: the run `[some 1, none]`, its segment of length 3, and
the `event_full` history of one post followed by one completed wait. -/
theorem dispatch_wait_post_pairing_witness :
    countDispatch ((producerTrace ([some 1, none] : List (Option Nat))).take 3) ≤
        countWaitFull ((producerTrace ([some 1, none] : List (Option Nat))).take 3)
    ∧ countDispatch (producerTrace ([some 1, none] : List (Option Nat))) =
        countWaitFull (producerTrace ([some 1, none] : List (Option Nat)))
    ∧ countWaitDone [SemEv.post, SemEv.waitDone] ≤
        countPost [SemEv.post, SemEv.waitDone] :=
  dispatch_wait_post_pairing [some 1, none] 3 [SemEv.post, SemEv.waitDone] rfl

/-- Program counter of the producer thread inside its loop: about to wait on
`event_full` (line 42), about to invoke the handler (line 45), about to push
a value to the Sink (line 51), about to post `event_empty` (line 52), or
exited via `break` (line 48). -/
inductive PPc (V : Type) where
  | atWait
  | atInvoke
  | atPush (v : Option V)
  | atPost
  | stopped
  deriving DecidableEq

/-- Program counter of the external callback side. Modelled from the spec
and from the protocol comment in events.c (lines 23-26): the callback does
`event_empty.wait`, fills the work queue, then `event_full.post`. -/
inductive EPc where
  | atWaitEmpty
  | atPostFull
  deriving DecidableEq

/-- Modelled from the spec: the cross-thread state of one bridge. The two
semaphores are counters (`hn_sem` lives outside these sources); `script` is
the sequence of results the handler will return; `extRemaining` is how many
more wait/post cycles the external callback side will run. -/
structure Sys (V : Type) where
  full : Nat
  empty : Nat
  sink : List (Option V)
  script : List (Option V)
  ppc : PPc V
  dispatches : Nat
  extRemaining : Nat
  epc : EPc
  deriving DecidableEq

/-- Enabled transitions of the producer thread (events.c lines 33-55): a
wait on `event_full` completes only when its count is positive; the handler
consumes the next scripted result; Qnil stops the loop; otherwise the value
is pushed and `event_empty` posted. -/
def producerSteps {V : Type} (s : Sys V) : List (Sys V) :=
  match s.ppc with
  | PPc.atWait =>
      match s.full with
      | 0 => []
      | f + 1 => [{ s with full := f, ppc := PPc.atInvoke }]
  | PPc.atInvoke =>
      match s.script with
      | [] => []
      | none :: rest =>
          [{ s with script := rest, dispatches := s.dispatches + 1, ppc := PPc.stopped }]
      | some v :: rest =>
          [{ s with script := rest, dispatches := s.dispatches + 1, ppc := PPc.atPush (some v) }]
  | PPc.atPush v => [{ s with sink := s.sink ++ [v], ppc := PPc.atPost }]
  | PPc.atPost => [{ s with empty := s.empty + 1, ppc := PPc.atWait }]
  | PPc.stopped => []

/-- Enabled transitions of the external callback side: while it has cycles
left it waits on `event_empty` (completes only when the count is positive)
and then posts `event_full`. -/
def externalSteps {V : Type} (s : Sys V) : List (Sys V) :=
  match s.epc with
  | EPc.atWaitEmpty =>
      match s.extRemaining, s.empty with
      | 0, _ => []
      | _ + 1, 0 => []
      | _ + 1, e + 1 => [{ s with empty := e, epc := EPc.atPostFull }]
  | EPc.atPostFull =>
      [{ s with full := s.full + 1, extRemaining := s.extRemaining - 1, epc := EPc.atWaitEmpty }]

/-- All transitions enabled in a system state, over every interleaving of
the two threads. -/
def sysNext {V : Type} (s : Sys V) : List (Sys V) :=
  producerSteps s ++ externalSteps s

/-- Breadth-first exploration: collect every reachable state in which
neither thread has an enabled transition. -/
def exploreFinals {V : Type} [DecidableEq V] : Nat → List (Sys V) → List (Sys V)
  | 0, _ => []
  | fuel + 1, frontier =>
      frontier.filter (fun s => (sysNext s).isEmpty) ++
        exploreFinals fuel ((frontier.map sysNext).flatten.dedup)

/-- All final (stuck or finished) states reachable from `s0` within `fuel`
interleaved steps, without duplicates. -/
def allFinals {V : Type} [DecidableEq V] (fuel : Nat) (s0 : Sys V) : List (Sys V) :=
  (exploreFinals fuel [s0]).dedup

/-- The scenario start state: `event_full = 0`, `event_empty = 1`, empty
Sink, handler script `A, B, Terminal` with `A = 10` and `B = 20`, producer
at its first wait, external side with three wait/post cycles to run. -/
def scenarioInit : Sys Nat :=
  { full := 0, empty := 1, sink := [], script := [some 10, some 20, none],
    ppc := PPc.atWait, dispatches := 0, extRemaining := 3,
    epc := EPc.atWaitEmpty }

/-- The unique outcome of the scenario: Sink `[A, B]`, producer stopped
after its third dispatch, both semaphores drained, external side done. -/
def scenarioFinal : Sys Nat :=
  { full := 0, empty := 0, sink := [some 10, some 20], script := [],
    ppc := PPc.stopped, dispatches := 3, extRemaining := 0,
    epc := EPc.atWaitEmpty }

/-- C6: starting from `event_full = 0`, `event_empty = 1`, with the external
side posting `event_full` three times and the handler returning `A`, `B`,
then the terminal marker, every interleaving ends in the single final state
whose Sink is `[A, B]` and whose producer has stopped after the third
dispatch. -/
theorem scenario_three_posts : allFinals 32 scenarioInit = [scenarioFinal] := by
  rfl

end Hallon
